import Mathlib

/-!
Verification of the SputnikVM stepping engine (`src/sputnikvm/src/vm/eval/mod.rs`).

The file embeds the `Machine` / `State` stepping loop of `mod.rs` shallowly in
Lean.  The per-opcode collaborators (`check_opcode`, `run_opcode`, the four
cost functions) and the `PC`, commit and error modules live in sibling files
that are not part of the given sources; they are modelled from the spec, which
fixes only their contracts.  Gas quantities (`Gas`) and 256-bit words (`M256`)
are modelled as `Nat`: the stepping loop performs no wrapping arithmetic on
them (the single subtraction is guarded by the gas gate).  A Rust panic
(`unwrap` failure, `unimplemented!`) is modelled as the `none` value of an
`Option`-typed result.
-/

namespace SputnikVM

abbrev Gas := Nat
abbrev M256 := Nat
abbrev Byte := Nat

/-- Modelled from the spec: `BlockHeader` is opaque to the stepping loop (it
is only stored and cloned), so it is embedded as an opaque token. -/
abbrev BlockHeader := Nat

/-- Modelled from the spec: the configuration `Patch` is opaque to the
stepping loop, so it is embedded as an opaque token. -/
abbrev Patch := Nat

/-- Modelled from the spec: the call context of one frame (code, caller, gas
limit, value, input).  Only `code` and `gas_limit` are read by the stepping
loop itself. -/
structure Context where
  address : Nat
  caller : Nat
  code : List Byte
  data : List Byte
  gas_limit : Gas
  value : Nat
deriving DecidableEq, Repr

/-- Modelled from the spec: PC errors (decode/bounds errors and the bad jump
destination), from the `errors` module which is not among the given
sources. -/
inductive PCError where
  | PCOverflow
  | InvalidOpcode
  | BadJumpDest
deriving DecidableEq, Repr

/-- Modelled from the spec: fatal machine violations, from the `errors`
module.  `mod.rs` names the variants `MachineError::PC` and
`MachineError::EmptyGas`; `Stack` stands for the stack violations the
checker may report. -/
inductive MachineError where
  | PC (e : PCError)
  | Stack
  | EmptyGas
deriving DecidableEq, Repr

/-- Modelled from the spec: a recoverable missing-fact signal requests the
account at an address or the hash of a block number. -/
inductive RequireError where
  | Account (address : Nat)
  | Blockhash (number : Nat)
deriving DecidableEq, Repr

/-- Modelled from the spec: `EvalError` is the sum of the fatal and the
recoverable error families, as matched in `Machine::step`. -/
inductive EvalError where
  | Machine (e : MachineError)
  | Require (e : RequireError)
deriving DecidableEq, Repr

/-- Modelled from the spec: committing a conflicting fact for an already
committed key is an error. -/
inductive CommitError where
  | AlreadyCommitted
deriving DecidableEq, Repr

/-- Modelled from the spec: an account fact is balance + nonce + code. -/
structure AccountFact where
  nonce : Nat
  balance : Nat
  code : List Byte
deriving DecidableEq, Repr

def assocLookup {α : Type} : List (Nat × α) → Nat → Option α
  | [], _ => none
  | (k, v) :: rest, key => if k = key then some v else assocLookup rest key

/-- Modelled from the spec: the per-frame account cache, a mapping from an
address to a previously supplied fact.  The `commit` module is not among the
given sources. -/
structure AccountState where
  facts : List (Nat × AccountFact)
deriving DecidableEq, Repr

/-- Modelled from the spec: once a key is committed it is immutable;
re-committing identical data is a no-op success, conflicting data is an
error, a fresh key is inserted. -/
def AccountState.commit (s : AccountState) (address : Nat) (fact : AccountFact) :
    Except CommitError AccountState :=
  match assocLookup s.facts address with
  | none => .ok ⟨(address, fact) :: s.facts⟩
  | some f => if f = fact then .ok s else .error .AlreadyCommitted

/-- Modelled from the spec: the per-frame block-hash cache. -/
structure BlockhashState where
  hashes : List (Nat × M256)
deriving DecidableEq, Repr

/-- Modelled from the spec: same commit rules as for the account cache. -/
def BlockhashState.commit (s : BlockhashState) (number : Nat) (hash : M256) :
    Except CommitError BlockhashState :=
  match assocLookup s.hashes number with
  | none => .ok ⟨(number, hash) :: s.hashes⟩
  | some h => if h = hash then .ok s else .error .AlreadyCommitted

/-- A VM state without PC (`State<M, S>` in `mod.rs`).  The generic memory
`M` is embedded as a byte list with `default = []`, the stack as a word
list. -/
structure State where
  memory : List Byte
  stack : List M256
  context : Context
  block : BlockHeader
  patch : Patch
  out : List Byte
  memory_gas : Gas
  used_gas : Gas
  refunded_gas : Gas
  account_state : AccountState
  blockhash_state : BlockhashState
deriving DecidableEq, Repr

/-- `MachineStatus` from `mod.rs`. -/
inductive MachineStatus where
  | Running
  | ExitedOk
  | ExitedErr (e : MachineError)
  | InvokeCall (context : Context) (window : M256 × M256)
deriving DecidableEq, Repr

/-- `ControlCheck` from `mod.rs`: the checker may return a jump destination
to validate. -/
inductive ControlCheck where
  | Jump (dest : Nat)
deriving DecidableEq, Repr

/-- `Control` from `mod.rs`: the executor may return a PC relocation or a
nested-call request. -/
inductive Control where
  | Jump (dest : Nat)
  | InvokeCall (context : Context) (window : M256 × M256)
deriving DecidableEq, Repr

/-- Modelled from the spec: the `PC` module (not among the given sources)
owns the code buffer and tracks the current offset. -/
structure PC where
  code : List Byte
  position : Nat
deriving DecidableEq, Repr

/-- Modelled from the spec: the collaborator contracts that `mod.rs` imports
from its sibling modules, none of which are among the given sources.  The
spec fixes their signatures, not their opcode tables, so they are carried as
parameters: `immSize b` is the number of trailing immediate bytes of the
instruction byte `b` (nonzero exactly for push-immediate instructions),
`validOpcode` tells whether a byte decodes at all, `check_opcode` is the
validity checker (a pure function of the state that may report a fatal
violation or a missing fact), the four cost functions return plain gas
quantities, and `run_opcode` performs the instruction effect on the state
and optionally yields a control signal.  The `Result`-free return types of
the cost functions and of `run_opcode` are exactly those used at the call
sites in `Machine::step`. -/
structure Evm where
  immSize : Byte → Nat
  validOpcode : Byte → Bool
  check_opcode : Byte → State → Except EvalError (Option ControlCheck)
  memory_cost : Byte → State → Gas
  gas_cost : Byte → State → Gas
  gas_stipend : Byte → State → Gas
  gas_refund : Byte → State → Gas
  run_opcode : Byte → State → Gas → Gas → State × Option Control

def PC.new (code : List Byte) : PC :=
  { code := code, position := 0 }

/-- Modelled from the spec: decode the instruction at the current offset;
fails with a bounds error if the code is exhausted and with a decode error
if the byte is not a known opcode.  Does not advance. -/
def PC.peek (pc : PC) (E : Evm) : Except PCError Byte :=
  match pc.code.get? pc.position with
  | none => .error .PCOverflow
  | some b => if E.validOpcode b then .ok b else .error .InvalidOpcode

/-- Modelled from the spec: decode the instruction at the current offset and
advance past it, including its immediate bytes. -/
def PC.read (pc : PC) (E : Evm) : Except PCError (Byte × PC) :=
  match pc.peek E with
  | .error e => .error e
  | .ok b => .ok (b, { pc with position := pc.position + 1 + E.immSize b })

/-- Modelled from the spec: scan the code byte by byte, carrying the
number of pending immediate bytes still to skip; a boundary is an offset
reached with no pending immediate bytes.  An offset inside a
push-immediate operand is reached with a nonzero skip count and is
rejected; an offset at or beyond the end of the code is rejected. -/
def boundaryFrom (immSize : Byte → Nat) : List Byte → Nat → Nat → Bool
  | [], _, _ => false
  | _ :: _, 0, skip => skip == 0
  | b :: rest, d + 1, skip =>
    boundaryFrom immSize rest d (if skip == 0 then immSize b else skip - 1)

/-- Modelled from the spec: jump-target validation answers whether the
offset is the start of a real instruction, i.e. an instruction boundary
of the code scanned from offset 0. -/
def PC.is_valid (pc : PC) (E : Evm) (dest : Nat) : Bool :=
  boundaryFrom E.immSize pc.code dest 0

/-- Modelled from the spec: relocate the PC to a destination inside the
code buffer; out-of-range destinations are an error. -/
def PC.jump (pc : PC) (dest : Nat) : Except PCError PC :=
  if dest < pc.code.length then .ok { pc with position := dest }
  else .error .PCOverflow

/-- A VM state with PC (`Machine<M, S>` in `mod.rs`). -/
structure Machine where
  state : State
  pc : PC
  status : MachineStatus
deriving DecidableEq, Repr

/-- `Machine::new` from `mod.rs`: fresh top-level machine, status `Running`,
PC at offset 0, default stack/memory/output, zero gas counters, empty
caches. -/
def Machine.new (context : Context) (block : BlockHeader) (patch : Patch) : Machine :=
  { pc := PC.new context.code,
    status := .Running,
    state :=
      { memory := [],
        stack := [],
        context := context,
        block := block,
        patch := patch,
        out := [],
        memory_gas := 0,
        used_gas := 0,
        refunded_gas := 0,
        account_state := ⟨[]⟩,
        blockhash_state := ⟨[]⟩ } }

/-- `Machine::derive` from `mod.rs`: child machine for a nested call,
cloning the parent's block, patch and both external-fact caches by value,
with fresh stack/memory/output/gas scoped to the child context. -/
def Machine.derive (m : Machine) (context : Context) : Machine :=
  { pc := PC.new context.code,
    status := .Running,
    state :=
      { memory := [],
        stack := [],
        context := context,
        block := m.state.block,
        patch := m.state.patch,
        out := [],
        memory_gas := 0,
        used_gas := 0,
        refunded_gas := 0,
        account_state := m.state.account_state,
        blockhash_state := m.state.blockhash_state } }

/-- `Machine::commit_account` from `mod.rs`: delegate to the account cache;
on success the cache is replaced, on conflict the machine is unchanged. -/
def Machine.commit_account (m : Machine) (address : Nat) (fact : AccountFact) :
    Except CommitError Machine :=
  match m.state.account_state.commit address fact with
  | .error e => .error e
  | .ok a => .ok { m with state := { m.state with account_state := a } }

/-- `Machine::commit_blockhash` from `mod.rs`. -/
def Machine.commit_blockhash (m : Machine) (number : Nat) (hash : M256) :
    Except CommitError Machine :=
  match m.state.blockhash_state.commit number hash with
  | .error e => .error e
  | .ok b => .ok { m with state := { m.state with blockhash_state := b } }

/-- A committed fact of either kind, for stating properties uniformly over
`commit_account` and `commit_blockhash`. -/
inductive Fact where
  | account (address : Nat) (fact : AccountFact)
  | blockhash (number : Nat) (hash : M256)
deriving DecidableEq, Repr

def Machine.commitFact (f : Fact) (m : Machine) : Except CommitError Machine :=
  match f with
  | .account a fact => m.commit_account a fact
  | .blockhash n h => m.commit_blockhash n h

/-- `Machine::apply_sub` from `mod.rs`: the body is `unimplemented!()`, a
panic.  A panic is modelled as `none`; no fold-back of a child machine into
its parent is performed. -/
def Machine.apply_sub (m : Machine) (sub : Machine) : Option Machine :=
  none

/-- `Machine::check` from `mod.rs`: peek the instruction (mapping a PC error
into the fatal family), run the checker, and validate a returned jump
destination against the PC, failing with `BadJumpDest` if it is not an
instruction boundary. -/
def Machine.check (E : Evm) (m : Machine) : Except EvalError Unit :=
  match m.pc.peek E with
  | .error e => .error (.Machine (.PC e))
  | .ok instruction =>
    match E.check_opcode instruction m.state with
    | .error e => .error e
    | .ok none => .ok ()
    | .ok (some (.Jump dest)) =>
      if m.pc.is_valid E dest then .ok ()
      else .error (.Machine (.PC .BadJumpDest))

/-- `Machine::step` from `mod.rs`.  The three `unwrap` calls of the source
(on `peek`, `read` and `jump`) are modelled by returning `none` (a panic)
when the unwrapped value is an error. -/
def Machine.step (E : Evm) (m : Machine) : Option (Machine × Option RequireError) :=
  match m.check E with
  | .error (.Machine error) => some ({ m with status := .ExitedErr error }, none)
  | .error (.Require error) => some (m, some error)
  | .ok _ =>
    match m.pc.peek E with
    | .error _ => none
    | .ok instruction =>
      let memory_cost := E.memory_cost instruction m.state
      let gas_cost := E.gas_cost instruction m.state
      let stipend := E.gas_stipend instruction m.state
      let refund := E.gas_refund instruction m.state
      if m.state.context.gas_limit < memory_cost + gas_cost then
        some ({ m with status := .ExitedErr .EmptyGas }, none)
      else
        match m.pc.read E with
        | .error _ => none
        | .ok ir =>
          let available_gas := m.state.context.gas_limit - memory_cost - gas_cost
          let run := E.run_opcode ir.1 m.state stipend available_gas
          let st : State :=
            { run.1 with
              used_gas := run.1.used_gas + gas_cost,
              memory_gas := memory_cost,
              refunded_gas := run.1.refunded_gas + refund }
          match run.2 with
          | none => some ({ m with state := st, pc := ir.2 }, none)
          | some (.Jump dest) =>
            match PC.jump ir.2 dest with
            | .error _ => none
            | .ok pc2 => some ({ m with state := st, pc := pc2 }, none)
          | some (.InvokeCall context window) =>
            some ({ m with state := st, pc := ir.2, status := .InvokeCall context window }, none)

/-!
Concrete sample instantiations of the collaborator contracts, used to
evaluate the theorems below on concrete inputs.
-/

/-- Sample immediate-size table: push-immediate opcodes `0x60 .. 0x7f`
carry 1 to 32 trailing bytes, every other opcode carries none. -/
def cImmSize (b : Byte) : Nat :=
  if 0x60 ≤ b ∧ b ≤ 0x7f then b - 0x5f else 0

/-- Sample collaborators: opcode `0x56` is a jump popping its destination
from the stack; every instruction costs 1 gas and no memory gas. -/
def cEvm : Evm :=
  { immSize := cImmSize,
    validOpcode := fun _ => true,
    check_opcode := fun i s =>
      if i = 0x56 then
        match s.stack with
        | dest :: _ => .ok (some (.Jump dest))
        | [] => .error (.Machine .Stack)
      else .ok none,
    memory_cost := fun _ _ => 0,
    gas_cost := fun _ _ => 1,
    gas_stipend := fun _ _ => 0,
    gas_refund := fun _ _ => 0,
    run_opcode := fun i s _ _ =>
      if i = 0x56 then
        match s.stack with
        | dest :: rest => ({ s with stack := rest }, some (.Jump dest))
        | [] => (s, none)
      else (s, none) }

/-- Sample collaborators realizing the out-of-gas scenario: every
instruction costs 20 intrinsic gas plus 5 memory-expansion gas. -/
def cGasEvm : Evm :=
  { immSize := cImmSize,
    validOpcode := fun _ => true,
    check_opcode := fun _ _ => .ok none,
    memory_cost := fun _ _ => 5,
    gas_cost := fun _ _ => 20,
    gas_stipend := fun _ _ => 0,
    gas_refund := fun _ _ => 0,
    run_opcode := fun _ s _ _ => (s, none) }

/-- Sample collaborators whose checker requires the account at address 7
until it has been committed. -/
def cReqEvm : Evm :=
  { immSize := cImmSize,
    validOpcode := fun _ => true,
    check_opcode := fun _ s =>
      match assocLookup s.account_state.facts 7 with
      | none => .error (.Require (.Account 7))
      | some _ => .ok none,
    memory_cost := fun _ _ => 0,
    gas_cost := fun _ _ => 1,
    gas_stipend := fun _ _ => 0,
    gas_refund := fun _ _ => 0,
    run_opcode := fun _ s _ _ => (s, none) }

def cContext (code : List Byte) (gl : Gas) : Context :=
  { address := 0, caller := 0, code := code, data := [], gas_limit := gl, value := 0 }

def cMachine (code : List Byte) (gl : Gas) : Machine :=
  Machine.new (cContext code gl) 0 0

/-- A machine stopped at a jump instruction whose destination (taken from
the stack top) falls inside the push-immediate operand at offset 1. -/
def c4Bad : Machine :=
  { cMachine [0x60, 0x03, 0x56] 10 with
    state := { (cMachine [0x60, 0x03, 0x56] 10).state with stack := [1] },
    pc := { code := [0x60, 0x03, 0x56], position := 2 } }

/-- A machine stopped at a jump instruction whose destination is the
genuine instruction boundary at offset 2. -/
def c4Good : Machine :=
  { cMachine [0x60, 0x03, 0x56] 10 with
    state := { (cMachine [0x60, 0x03, 0x56] 10).state with stack := [2] },
    pc := { code := [0x60, 0x03, 0x56], position := 2 } }

/-- A directly constructed machine carrying a terminal status while its
state could still pay for the instruction at its PC. -/
def cTermM : Machine :=
  { cMachine [0x00] 10 with status := .ExitedErr .EmptyGas }

def c3Fact : AccountFact := ⟨0, 0, []⟩

/-- The machine obtained by committing the account at address 7 into
`cMachine [0x00] 10`. -/
def c3M2 : Machine :=
  { cMachine [0x00] 10 with
    state := { (cMachine [0x00] 10).state with account_state := ⟨[(7, c3Fact)]⟩ } }

/-- The terminal machine produced by stepping a `Running` frame whose gas
limit 0 cannot pay the 20+5 gas of its instruction. -/
def c2Exited : Machine :=
  { cMachine [0x00] 0 with status := .ExitedErr .EmptyGas }

/-- The machine produced by one executed step of `cEvm` on
`cMachine [0x00] 10`: one gas unit consumed, PC advanced to offset 1. -/
def c6After : Machine :=
  { cMachine [0x00] 10 with
    state := { (cMachine [0x00] 10).state with used_gas := 1 },
    pc := { code := [0x00], position := 1 } }

/-- The machine produced by one executed step of `cGasEvm` on
`cMachine [0x00] 30`: 20 gas consumed, memory gas 5, PC at offset 1. -/
def c7After : Machine :=
  { cMachine [0x00] 30 with
    state := { (cMachine [0x00] 30).state with used_gas := 20, memory_gas := 5 },
    pc := { code := [0x00], position := 1 } }

/-- The post-execution charge applied by `step` after `run_opcode`:
`used_gas` and `refunded_gas` are accumulated, `memory_gas` is replaced,
all with quantities computed from the pre-execution state `m.state`. -/
def runResult (E : Evm) (m : Machine) (i : Byte) : State × Option Control :=
  E.run_opcode i m.state (E.gas_stipend i m.state)
    (m.state.context.gas_limit - E.memory_cost i m.state - E.gas_cost i m.state)

def chargedState (E : Evm) (m : Machine) (i : Byte) : State :=
  { (runResult E m i).1 with
    used_gas := (runResult E m i).1.used_gas + E.gas_cost i m.state,
    memory_gas := E.memory_cost i m.state,
    refunded_gas := (runResult E m i).1.refunded_gas + E.gas_refund i m.state }

def advancedPC (E : Evm) (m : Machine) (i : Byte) : PC :=
  { m.pc with position := m.pc.position + 1 + E.immSize i }

/-!  Helper lemmas characterizing the branches of `Machine.step`.  -/

theorem read_of_peek (pc : PC) (E : Evm) (i : Byte) (h : pc.peek E = .ok i) :
    pc.read E = .ok (i, { pc with position := pc.position + 1 + E.immSize i }) := by
  unfold PC.read
  rw [h]

theorem peek_of_check_ok (E : Evm) (m : Machine) (h : m.check E = .ok ()) :
    ∃ i, m.pc.peek E = .ok i := by
  unfold Machine.check at h
  cases hp : m.pc.peek E with
  | error e => simp [hp] at h
  | ok i => exact ⟨i, rfl⟩

theorem step_of_check_machine (E : Evm) (m : Machine) (err : MachineError)
    (h : m.check E = .error (.Machine err)) :
    Machine.step E m = some ({ m with status := .ExitedErr err }, none) := by
  unfold Machine.step
  rw [h]

theorem step_of_check_require (E : Evm) (m : Machine) (e : RequireError)
    (h : m.check E = .error (.Require e)) :
    Machine.step E m = some (m, some e) := by
  unfold Machine.step
  rw [h]

theorem step_of_gate (E : Evm) (m : Machine) (i : Byte)
    (hck : m.check E = .ok ())
    (hpeek : m.pc.peek E = .ok i)
    (hlt : m.state.context.gas_limit < E.memory_cost i m.state + E.gas_cost i m.state) :
    Machine.step E m = some ({ m with status := .ExitedErr .EmptyGas }, none) := by
  simp only [Machine.step, hck, hpeek]
  rw [if_pos hlt]

theorem step_run_none (E : Evm) (m : Machine) (i : Byte)
    (hck : m.check E = .ok ())
    (hpeek : m.pc.peek E = .ok i)
    (hge : ¬ m.state.context.gas_limit < E.memory_cost i m.state + E.gas_cost i m.state)
    (hctl : (runResult E m i).2 = none) :
    Machine.step E m =
      some ({ m with state := chargedState E m i, pc := advancedPC E m i }, none) := by
  simp only [Machine.step, hck, hpeek, read_of_peek _ _ _ hpeek]
  rw [if_neg hge]
  simp only [runResult] at hctl
  simp only [hctl, runResult, chargedState, advancedPC]

theorem step_run_jump (E : Evm) (m : Machine) (i : Byte) (dest : Nat)
    (hck : m.check E = .ok ())
    (hpeek : m.pc.peek E = .ok i)
    (hge : ¬ m.state.context.gas_limit < E.memory_cost i m.state + E.gas_cost i m.state)
    (hctl : (runResult E m i).2 = some (.Jump dest)) :
    Machine.step E m =
      (match (advancedPC E m i).jump dest with
        | .error e => none
        | .ok pc2 => some ({ m with state := chargedState E m i, pc := pc2 }, none)) := by
  simp only [Machine.step, hck, hpeek, read_of_peek _ _ _ hpeek]
  rw [if_neg hge]
  simp only [runResult] at hctl
  simp only [hctl, runResult, chargedState, advancedPC]

theorem step_run_invoke (E : Evm) (m : Machine) (i : Byte) (c : Context) (w : M256 × M256)
    (hck : m.check E = .ok ())
    (hpeek : m.pc.peek E = .ok i)
    (hge : ¬ m.state.context.gas_limit < E.memory_cost i m.state + E.gas_cost i m.state)
    (hctl : (runResult E m i).2 = some (.InvokeCall c w)) :
    Machine.step E m =
      some ({ m with
              state := chargedState E m i,
              pc := advancedPC E m i,
              status := .InvokeCall c w }, none) := by
  simp only [Machine.step, hck, hpeek, read_of_peek _ _ _ hpeek]
  rw [if_neg hge]
  simp only [runResult] at hctl
  simp only [hctl, runResult, chargedState, advancedPC]

theorem step_req_inv (E : Evm) (m m' : Machine) (e : RequireError)
    (h : Machine.step E m = some (m', some e)) :
    m' = m ∧ m.check E = .error (.Require e) := by
  simp only [Machine.step] at h
  cases hc : m.check E with
  | error err =>
    cases err with
    | Machine err => simp [hc] at h
    | Require e2 =>
      simp only [hc, Option.some.injEq, Prod.mk.injEq] at h
      obtain ⟨h1, h2⟩ := h
      exact ⟨h1.symm, by rw [h2]⟩
  | ok u =>
    simp only [hc] at h
    cases hp : m.pc.peek E with
    | error e2 => simp [hp] at h
    | ok i =>
      simp only [hp] at h
      by_cases hlt :
          m.state.context.gas_limit < E.memory_cost i m.state + E.gas_cost i m.state
      · simp [hlt] at h
      · simp only [if_neg hlt, read_of_peek _ _ _ hp] at h
        cases hr : (E.run_opcode i m.state (E.gas_stipend i m.state)
            (m.state.context.gas_limit - E.memory_cost i m.state
              - E.gas_cost i m.state)).2 with
        | none => simp [hr] at h
        | some ctl =>
          cases ctl with
          | Jump dest =>
            simp only [hr] at h
            cases hj : PC.jump { m.pc with position := m.pc.position + 1 + E.immSize i } dest with
            | error e3 => simp [hj] at h
            | ok pc2 => simp [hj] at h
          | InvokeCall c w => simp [hr] at h

theorem boundaryFrom_lt (immSize : Byte → Nat) (code : List Byte) :
    ∀ d skip, boundaryFrom immSize code d skip = true → d < code.length := by
  induction code with
  | nil => intro d skip h; simp [boundaryFrom] at h
  | cons b rest ih =>
    intro d skip h
    cases d with
    | zero => simp
    | succ n =>
      simp only [boundaryFrom] at h
      have := ih n (if skip == 0 then immSize b else skip - 1) h
      simp only [List.length_cons]
      omega

theorem check_of_jump (E : Evm) (m : Machine) (i : Byte) (dest : Nat)
    (hpeek : m.pc.peek E = .ok i)
    (hco : E.check_opcode i m.state = .ok (some (.Jump dest))) :
    m.check E =
      (if m.pc.is_valid E dest then .ok ()
       else .error (.Machine (.PC .BadJumpDest))) := by
  simp only [Machine.check, hpeek, hco]

theorem step_run_state (E : Evm) (m m' : Machine) (r : Option RequireError) (i : Byte)
    (hck : m.check E = .ok ())
    (hpeek : m.pc.peek E = .ok i)
    (hge : ¬ m.state.context.gas_limit < E.memory_cost i m.state + E.gas_cost i m.state)
    (hstep : Machine.step E m = some (m', r)) :
    m'.state = chargedState E m i := by
  cases hr : (runResult E m i).2 with
  | none =>
    rw [step_run_none E m i hck hpeek hge hr] at hstep
    simp only [Option.some.injEq, Prod.mk.injEq] at hstep
    rw [← hstep.1]
  | some ctl =>
    cases ctl with
    | Jump dest =>
      rw [step_run_jump E m i dest hck hpeek hge hr] at hstep
      cases hj : (advancedPC E m i).jump dest with
      | error e2 => simp [hj] at hstep
      | ok pc2 =>
        simp only [hj, Option.some.injEq, Prod.mk.injEq] at hstep
        rw [← hstep.1]
    | InvokeCall c w =>
      rw [step_run_invoke E m i c w hck hpeek hge hr] at hstep
      simp only [Option.some.injEq, Prod.mk.injEq] at hstep
      rw [← hstep.1]

/-!  Claim theorems.  -/

/-- Claim C1 (gas gate): for a machine in status `Running` whose pending
instruction passes `check` but whose `memory_cost + gas_cost` exceeds the
frame's remaining gas (`context.gas_limit`), `step` returns `Ok`, sets the
status to the out-of-gas error `ExitedErr EmptyGas`, and performs no stack,
memory, output or `used_gas` mutation: the resulting machine differs from
the input only in its status field. -/
theorem gas_gate_out_of_gas (E : Evm) (m : Machine) (i : Byte)
    (hrun : m.status = .Running)
    (hck : m.check E = .ok ())
    (hpeek : m.pc.peek E = .ok i)
    (hgas : m.state.context.gas_limit < E.memory_cost i m.state + E.gas_cost i m.state) :
    Machine.step E m = some ({ m with status := .ExitedErr .EmptyGas }, none) :=
  step_of_gate E m i hck hpeek hgas

/-- Witness for C1, realizing the spec scenario: a frame with gas limit 21
and an instruction costing 20 intrinsic gas plus 5 memory-expansion gas
exits out-of-gas, with the entire state (in particular `used_gas`)
unchanged from before the step. -/
theorem gas_gate_out_of_gas_witness :
    Machine.step cGasEvm (cMachine [0x00] 21)
      = some ({ cMachine [0x00] 21 with status := .ExitedErr .EmptyGas }, none) :=
  gas_gate_out_of_gas cGasEvm (cMachine [0x00] 21) 0x00 rfl rfl rfl (by decide)

/-- Claim C3 (Require atomicity and idempotence): when `step` returns a
recoverable `Require` error the machine — status, PC, stack, memory, gas
counters and output — is unchanged by that call; supplying the missing
fact via a commit and re-invoking `step` yields a state identical to a
reference run in which the fact had been committed before the first
`step` call. -/
theorem require_atomic_idempotent (E : Evm) (m m1 m2 m2' : Machine)
    (e : RequireError) (f : Fact)
    (hstep : Machine.step E m = some (m1, some e))
    (hc1 : Machine.commitFact f m1 = .ok m2)
    (hc2 : Machine.commitFact f m = .ok m2') :
    m1 = m ∧ m2 = m2' ∧ Machine.step E m2 = Machine.step E m2' := by
  obtain ⟨h1, _⟩ := step_req_inv E m m1 e hstep
  subst h1
  rw [hc1] at hc2
  cases hc2
  exact ⟨rfl, rfl, rfl⟩

/-- Witness for C3: a checker requiring the account at address 7 signals a
`Require`; committing that account and re-stepping matches the reference
run where the account was committed first. -/
theorem require_atomic_idempotent_witness :
    cMachine [0x00] 10 = cMachine [0x00] 10 ∧ c3M2 = c3M2 ∧
      Machine.step cReqEvm c3M2 = Machine.step cReqEvm c3M2 :=
  require_atomic_idempotent cReqEvm (cMachine [0x00] 10) (cMachine [0x00] 10) c3M2 c3M2
    (.Account 7) (.account 7 c3Fact) rfl rfl rfl

/-- Counterexample to claim C2 as stated: `step` never inspects the status
field, so a machine carrying terminal status `ExitedErr EmptyGas` whose
state can still pay for the instruction at its PC is stepped normally —
here `used_gas` changes from 0 to 1, refuting that every terminal machine
is a fixed point of `step`. -/
theorem terminal_fixed_counterexample :
    cTermM.status = .ExitedErr .EmptyGas ∧
    (Machine.step cEvm cTermM).map (fun p => p.1.state.used_gas) = some 1 ∧
    cTermM.state.used_gas = 0 :=
  ⟨rfl, rfl, rfl⟩

/-- Claim C2, amended: `step` does not consult the status field, so an
arbitrarily constructed machine in terminal status need not be a fixed
point; but every terminal state actually produced by stepping is one: if a
`step` from `Running` leaves the machine in `ExitedErr`, a further `step`
changes nothing — status, stack, memory and all gas counters are
preserved. -/
theorem terminal_after_step_fixed (E : Evm) (m m' : Machine) (e : MachineError)
    (hrun : m.status = .Running)
    (hstep : Machine.step E m = some (m', none))
    (hterm : m'.status = .ExitedErr e) :
    Machine.step E m' = some (m', none) := by
  cases hc : m.check E with
  | error err =>
    cases err with
    | Machine err =>
      rw [step_of_check_machine E m err hc] at hstep
      simp only [Option.some.injEq, Prod.mk.injEq] at hstep
      have hm' : m' = { m with status := .ExitedErr err } := hstep.1.symm
      have hc' : m'.check E = .error (.Machine err) := by rw [hm']; exact hc
      rw [step_of_check_machine E m' err hc', hm']
    | Require e2 =>
      rw [step_of_check_require E m e2 hc] at hstep
      simp at hstep
  | ok u =>
    cases u
    obtain ⟨i, hp⟩ := peek_of_check_ok E m hc
    by_cases hlt :
        m.state.context.gas_limit < E.memory_cost i m.state + E.gas_cost i m.state
    · rw [step_of_gate E m i hc hp hlt] at hstep
      simp only [Option.some.injEq, Prod.mk.injEq] at hstep
      have hm' : m' = { m with status := .ExitedErr .EmptyGas } := hstep.1.symm
      have hc' : m'.check E = .ok () := by rw [hm']; exact hc
      have hp' : m'.pc.peek E = .ok i := by rw [hm']; exact hp
      have hlt' :
          m'.state.context.gas_limit <
            E.memory_cost i m'.state + E.gas_cost i m'.state := by
        rw [hm']; exact hlt
      rw [step_of_gate E m' i hc' hp' hlt', hm']
    · have hst := step_run_state E m m' none i hc hp hlt hstep
      cases hr : (runResult E m i).2 with
      | none =>
        rw [step_run_none E m i hc hp hlt hr] at hstep
        simp only [Option.some.injEq, Prod.mk.injEq] at hstep
        rw [← hstep.1, hrun] at hterm
        simp at hterm
      | some ctl =>
        cases ctl with
        | Jump dest =>
          rw [step_run_jump E m i dest hc hp hlt hr] at hstep
          cases hj : (advancedPC E m i).jump dest with
          | error e2 => simp [hj] at hstep
          | ok pc2 =>
            simp only [hj, Option.some.injEq, Prod.mk.injEq] at hstep
            rw [← hstep.1, hrun] at hterm
            simp at hterm
        | InvokeCall c w =>
          rw [step_run_invoke E m i c w hc hp hlt hr] at hstep
          simp only [Option.some.injEq, Prod.mk.injEq] at hstep
          rw [← hstep.1] at hterm
          simp at hterm

/-- Witness for the amended C2: a frame that exits out-of-gas by a step
from `Running` is a fixed point of a further `step`. -/
theorem terminal_after_step_fixed_witness :
    Machine.step cGasEvm c2Exited = some (c2Exited, none) :=
  terminal_after_step_fixed cGasEvm (cMachine [0x00] 0) c2Exited .EmptyGas rfl rfl rfl

/-- Claim C4 (jump validity): for a jump instruction whose checker returns
destination `dest`: if `dest` is not a valid instruction boundary (in
particular when it falls inside a push-immediate operand's data bytes),
`step` terminates the machine with `ExitedErr (PC BadJumpDest)`; if `dest`
is a genuine instruction boundary and the step executes (gas gate passes,
executor yields `Jump dest` as validated by the checker), the `unwrap` on
`pc.jump` cannot fail and the step succeeds, relocating the PC exactly to
offset `dest`. -/
theorem jump_validity (E : Evm) (m : Machine) (i : Byte) (dest : Nat)
    (hpeek : m.pc.peek E = .ok i)
    (hco : E.check_opcode i m.state = .ok (some (.Jump dest))) :
    (m.pc.is_valid E dest = false →
      Machine.step E m =
        some ({ m with status := .ExitedErr (.PC .BadJumpDest) }, none)) ∧
    (m.pc.is_valid E dest = true →
      ¬ m.state.context.gas_limit < E.memory_cost i m.state + E.gas_cost i m.state →
      (runResult E m i).2 = some (.Jump dest) →
      Machine.step E m =
        some ({ m with
                state := chargedState E m i,
                pc := { code := m.pc.code, position := dest } }, none)) := by
  constructor
  · intro hv
    have hc : m.check E = .error (.Machine (.PC .BadJumpDest)) := by
      rw [check_of_jump E m i dest hpeek hco, hv]
      simp
    exact step_of_check_machine E m (.PC .BadJumpDest) hc
  · intro hv hge hctl
    have hc : m.check E = .ok () := by
      rw [check_of_jump E m i dest hpeek hco, hv]
      simp
    have hdest : dest < m.pc.code.length :=
      boundaryFrom_lt E.immSize m.pc.code dest 0 hv
    rw [step_run_jump E m i dest hc hpeek hge hctl]
    have hj : (advancedPC E m i).jump dest =
        .ok { code := m.pc.code, position := dest } := by
      simp only [PC.jump, advancedPC]
      rw [if_pos hdest]
    rw [hj]

/-- Witness for C4: on the program `[PUSH1 0x03, JUMP]`, jumping to offset
1 (inside the push operand) exits with `BadJumpDest`, while jumping to the
instruction boundary at offset 2 succeeds and relocates the PC there. -/
theorem jump_validity_witness :
    Machine.step cEvm c4Bad
      = some ({ c4Bad with status := .ExitedErr (.PC .BadJumpDest) }, none) ∧
    Machine.step cEvm c4Good
      = some ({ c4Good with
                state := chargedState cEvm c4Good 0x56,
                pc := { code := c4Good.pc.code, position := 2 } }, none) :=
  ⟨(jump_validity cEvm c4Bad 0x56 1 rfl rfl).1 rfl,
   (jump_validity cEvm c4Good 0x56 2 rfl rfl).2 rfl (by decide) rfl⟩

/-- Claim C5 (fatal-violation mapping): whenever `check` inside `step`
reports a fatal machine violation, `step` sets the status to `ExitedErr`
carrying that cause and returns `Ok(())`: the step call itself reports
success (`some`, with no `Require` signal) even though the machine becomes
terminal. -/
theorem fatal_violation_exits (E : Evm) (m : Machine) (err : MachineError)
    (h : m.check E = .error (.Machine err)) :
    Machine.step E m = some ({ m with status := .ExitedErr err }, none) :=
  step_of_check_machine E m err h

/-- Witness for C5: on a machine whose code is exhausted, `check` reports
the fatal decode/bounds violation and `step` succeeds while exiting the
machine with that cause. -/
theorem fatal_violation_exits_witness :
    Machine.step cGasEvm (cMachine [] 10)
      = some ({ cMachine [] 10 with status := .ExitedErr (.PC .PCOverflow) }, none) :=
  fatal_violation_exits cGasEvm (cMachine [] 10) (.PC .PCOverflow) rfl

/-- Claim C6 (gas-counter update): on every step that passes the check and
the gas gate and runs the executor to completion (the executor leaving the
gas accumulators alone, per its contract of touching only stack, memory,
storage and output), `used_gas` grows by exactly `gas_cost`,
`refunded_gas` grows by exactly `gas_refund`, and `memory_gas` is replaced
by (set equal to) `memory_cost`; all quantities are computed from the
pre-execution state `m.state`. -/
theorem gas_counter_update (E : Evm) (m m' : Machine) (r : Option RequireError) (i : Byte)
    (hck : m.check E = .ok ())
    (hpeek : m.pc.peek E = .ok i)
    (hge : ¬ m.state.context.gas_limit < E.memory_cost i m.state + E.gas_cost i m.state)
    (hexec : (runResult E m i).1.used_gas = m.state.used_gas ∧
      (runResult E m i).1.refunded_gas = m.state.refunded_gas)
    (hstep : Machine.step E m = some (m', r)) :
    m'.state.used_gas = m.state.used_gas + E.gas_cost i m.state ∧
    m'.state.memory_gas = E.memory_cost i m.state ∧
    m'.state.refunded_gas = m.state.refunded_gas + E.gas_refund i m.state := by
  rw [step_run_state E m m' r i hck hpeek hge hstep]
  simp [chargedState, hexec.1, hexec.2]

/-- Witness for C6: one executed step of an instruction costing 1 gas with
no memory expansion and no refund takes `used_gas` from 0 to 1, leaves
`memory_gas` at 0 and `refunded_gas` at 0. -/
theorem gas_counter_update_witness :
    c6After.state.used_gas = (cMachine [0x00] 10).state.used_gas + 1 ∧
    c6After.state.memory_gas = 0 ∧
    c6After.state.refunded_gas = (cMachine [0x00] 10).state.refunded_gas + 0 :=
  gas_counter_update cEvm (cMachine [0x00] 10) c6After none 0x00
    rfl rfl (by decide) ⟨rfl, rfl⟩ rfl

/-- Claim C7 (executor gas budget): on every executed step, the state of
the resulting machine is the one produced by invoking the executor with
`available_gas = gas_limit - memory_cost - gas_cost` (the frame's
remaining gas minus the two costs of the pending instruction) before the
gas counters are charged; and the PC was advanced past the instruction
before the executor was invoked — when the executor yields no control
signal, the final PC is exactly the advanced one. -/
theorem executor_gas_budget (E : Evm) (m m' : Machine) (r : Option RequireError) (i : Byte)
    (hck : m.check E = .ok ())
    (hpeek : m.pc.peek E = .ok i)
    (hge : ¬ m.state.context.gas_limit < E.memory_cost i m.state + E.gas_cost i m.state)
    (hstep : Machine.step E m = some (m', r)) :
    m'.state =
      { (E.run_opcode i m.state (E.gas_stipend i m.state)
          (m.state.context.gas_limit - E.memory_cost i m.state
            - E.gas_cost i m.state)).1 with
        used_gas :=
          (E.run_opcode i m.state (E.gas_stipend i m.state)
            (m.state.context.gas_limit - E.memory_cost i m.state
              - E.gas_cost i m.state)).1.used_gas + E.gas_cost i m.state,
        memory_gas := E.memory_cost i m.state,
        refunded_gas :=
          (E.run_opcode i m.state (E.gas_stipend i m.state)
            (m.state.context.gas_limit - E.memory_cost i m.state
              - E.gas_cost i m.state)).1.refunded_gas + E.gas_refund i m.state } ∧
    ((runResult E m i).2 = none →
      m'.pc = { m.pc with position := m.pc.position + 1 + E.immSize i }) := by
  constructor
  · exact step_run_state E m m' r i hck hpeek hge hstep
  · intro hctl
    rw [step_run_none E m i hck hpeek hge hctl] at hstep
    simp only [Option.some.injEq, Prod.mk.injEq] at hstep
    rw [← hstep.1]
    rfl

/-- Witness for C7: an executed step of `cGasEvm` (costs 20 + 5) on a
frame with gas limit 30 hands the executor 5 units of available gas and
leaves the PC advanced past the instruction. -/
theorem executor_gas_budget_witness :
    c7After.state =
      { (cMachine [0x00] 30).state with used_gas := 20, memory_gas := 5 } ∧
    c7After.pc = { code := [0x00], position := 1 } :=
  ⟨(executor_gas_budget cGasEvm (cMachine [0x00] 30) c7After none 0x00
      rfl rfl (by decide) rfl).1,
   (executor_gas_budget cGasEvm (cMachine [0x00] 30) c7After none 0x00
      rfl rfl (by decide) rfl).2 rfl⟩

/-- Claim C8 (derivation): `derive` returns a new machine with status
`Running`, PC at offset 0 of the child context's code, empty stack, memory
and output, all three gas counters zero, the parent's block header and
patch, and point-in-time value copies of both external-fact caches.  The
parent machine value is untouched (`derive` is a pure function of it), so
a later commit on the child produces a new child value and never appears
in the parent's caches, and vice versa. -/
theorem derive_characterization (m : Machine) (context : Context) :
    Machine.derive m context =
      { pc := { code := context.code, position := 0 },
        status := .Running,
        state :=
          { memory := [],
            stack := [],
            context := context,
            block := m.state.block,
            patch := m.state.patch,
            out := [],
            memory_gas := 0,
            used_gas := 0,
            refunded_gas := 0,
            account_state := m.state.account_state,
            blockhash_state := m.state.blockhash_state } } := rfl

/-- Claim C9: sub-call fold-back is unimplemented — `apply_sub` is the
`unimplemented!()` panic (modelled as `none`) for every machine and every
sub-machine; no fold-back of a completed child call's effects into its
parent is performed. -/
theorem apply_sub_unimplemented (m sub : Machine) :
    Machine.apply_sub m sub = none := rfl

/-- Claim C10: a recoverable `Require` error can originate only from the
check phase: `step` yields a `Require` signal exactly when `check` failed
with that signal, and then the machine is unchanged.  The cost functions
return plain gas values and `run_opcode` returns only an optional control
signal, so once `check` succeeds the step reports success. -/
theorem require_only_from_check (E : Evm) (m m' : Machine) (e : RequireError) :
    Machine.step E m = some (m', some e) ↔
      (m.check E = .error (.Require e) ∧ m' = m) := by
  constructor
  · intro h
    obtain ⟨h1, h2⟩ := step_req_inv E m m' e h
    exact ⟨h2, h1⟩
  · rintro ⟨hc, hm⟩
    rw [hm]
    exact step_of_check_require E m e hc

end SputnikVM
